import Mathlib

/-!
Shallow embedding of `prompting/mock.py`: the mock network transport
(`MockDendrite.call`, `MockDendrite.call_stream`, `MockDendrite.forward`)
and the mock streaming miner (`MockStreamMiner.forward._forward`).

Time is modeled explicitly, as integers in an arbitrary unit: the only
operations that advance the clock are the `time.sleep` calls inside the
token generator; their durations are supplied by an oracle
`sleeps : Nat → ℤ` (the code draws `timeout * random.uniform(0.2, 0.5)`
before each emitted batch).  The uniform draw of the unary path is likewise
passed in explicitly as `draw` (the code draws
`random.uniform(0, 2 * timeout)`).
-/

/-- Helper for `pySplit`: walk the characters, accumulating the current
token (reversed); whitespace closes the current token, and empty tokens are
dropped. -/
def splitWsAux : List Char → List Char → List String
  | [], acc => if acc = [] then [] else [String.mk acc.reverse]
  | ch :: rest, acc =>
    if ch.isWhitespace then
      (if acc = [] then [] else [String.mk acc.reverse]) ++ splitWsAux rest []
    else splitWsAux rest (ch :: acc)

/-- Python `str.split()` with no argument: split on whitespace and drop
empty pieces. -/
def pySplit (s : String) : List String := splitWsAux s.toList []

/-- Python `" ".join l`. -/
def joinSp (l : List String) : String := String.intercalate " " l

/-- The dendrite sub-object of a synapse: the three fields the mock code
writes (`status_code`, `status_message`, `process_time`), plus one opaque
field standing for all the addressing metadata the simulators never touch. -/
structure Dend where
  status_code : Nat
  status_message : String
  process_time : ℤ
  otherInfo : String
deriving DecidableEq

/-- The synapse record mutated by the simulators: the `messages` and
`roles` of the request (never written by the mock), the `completion`, and
the `dendrite` status block. -/
structure Synapse where
  messages : List String
  roles : List String
  completion : String
  dendrite : Dend
deriving DecidableEq

/-- `MockDendrite.call` (mock.py lines 172-205), with the uniform draw
`process_time = random.uniform(0, 2 * timeout)` passed in as `draw`.
If `draw < timeout` the call succeeds: placeholder completion encoding the
target index, 200/"OK", `process_time` = the draw (line 189 first stores
the elapsed time but line 194 overwrites it with the draw).  Otherwise it
times out: empty completion, 408/"Timeout", `process_time` = `timeout`. -/
def call (i : Nat) (draw timeout : ℤ) (syn : Synapse) : Synapse :=
  if draw < timeout then
    { syn with
      completion := "Mock miner completion " ++ toString i,
      dendrite := { syn.dendrite with
        status_code := 200, status_message := "OK", process_time := draw } }
  else
    { syn with
      completion := "",
      dendrite := { syn.dendrite with
        status_code := 408, status_message := "Timeout", process_time := timeout } }

/-- Modelled from the spec: the deserialization hook (`synapse.deserialize()`
of `PromptingSynapse`, defined in `prompting/protocol.py` which is not part
of the sources) is "an optional pure transform applied before the record is
returned"; on a prompting synapse it extracts the completion. -/
def deserializeSyn (syn : Synapse) : String := syn.completion

/-- The tail of `MockDendrite.call` (lines 201-205): return the deserialized
value when `deser` is set, the raw mutated synapse otherwise. -/
def callDeser (i : Nat) (draw timeout : ℤ) (deser : Bool) (syn : Synapse) :
    Synapse ⊕ String :=
  if deser then Sum.inr (deserializeSyn (call i draw timeout syn))
  else Sum.inl (call i draw timeout syn)

/-- One chunk yielded by the `_forward` generator of `MockStreamMiner`:
the token batch, the `continue_streaming` flag, and the clock value at the
moment of the yield. -/
structure Chunk where
  tokens : List String
  more : Bool
  t : ℤ
deriving DecidableEq

/-- State returned by the token loop of `_forward` (mock.py lines 136-150):
the chunks yielded so far, the accumulation buffer at loop exit, whether
the loop exited through the timeout-break path, the clock at loop exit,
and the number of sleep draws consumed.  The break path matters: its
`print` dereferences `self.start_time` (line 141), an attribute
`MockStreamMiner` never sets, so it raises `AttributeError`; the `except`
at line 156 catches it and the generator ends there, skipping the final
flush. -/
structure LoopOut where
  chunks : List Chunk
  buf : List String
  broke : Bool
  t : ℤ
  sIdx : Nat
deriving DecidableEq

/-- Output of one full run of the `_forward` generator: the yielded chunk
list, the clock at generator exit, and the number of sleep draws consumed. -/
structure GenOut where
  chunks : List Chunk
  tEnd : ℤ
  sEnd : Nat
deriving DecidableEq

/-- Prepend a freshly yielded chunk to a loop outcome. -/
def LoopOut.push (o : LoopOut) (c : Chunk) : LoopOut :=
  ⟨c :: o.chunks, o.buf, o.broke, o.t, o.sIdx⟩

/-- The `for token in prompt.split()` loop of `_forward` (lines 136-150).
Per token: append to the buffer; if the elapsed time exceeds `timeout`,
the break path is taken — its `print` raises `AttributeError` on
`self.start_time` (line 141), so iteration ends with nothing further
yielded and `broke` set; if the buffer has reached `batch` tokens, sleep
(advancing the clock by the next oracle value) and yield the buffer with
`more = true`, then clear it. -/
def tokenLoop (batch : Nat) (timeout : ℤ) (sleeps : Nat → ℤ) :
    List String → List String → ℤ → Nat → LoopOut
  | [], buf, t, sIdx => ⟨[], buf, false, t, sIdx⟩
  | tok :: rest, buf, t, sIdx =>
    if timeout < t then ⟨[], buf ++ [tok], true, t, sIdx⟩
    else if (buf ++ [tok]).length = batch then
      (tokenLoop batch timeout sleeps rest [] (t + sleeps sIdx) (sIdx + 1)).push
        ⟨buf ++ [tok], true, t + sleeps sIdx⟩
    else
      tokenLoop batch timeout sleeps rest (buf ++ [tok]) t sIdx

/-- The final flush of `_forward` (lines 152-154) applied to a finished
token loop: only when the loop exited cleanly (no break, hence no caught
`AttributeError`) and the buffer is non-empty, one more chunk with
`more = false` is emitted after the loop chunks.  On the break path the
exception ends the generator before the `if buffer:` flush. -/
def GenOut.ofLoop (o : LoopOut) : GenOut :=
  ⟨o.chunks ++ (if o.broke = true ∨ o.buf = [] then [] else [⟨o.buf, false, o.t⟩]),
   o.t, o.sIdx⟩

/-- One full run of the `_forward` generator (lines 131-157): the token
loop starting from an empty buffer, followed by the final flush. -/
def streamChunks (batch : Nat) (timeout : ℤ) (sleeps : Nat → ℤ)
    (tokens : List String) (t : ℤ) (sIdx : Nat) : GenOut :=
  GenOut.ofLoop (tokenLoop batch timeout sleeps tokens [] t sIdx)

/-- The consumer `for buffer, continue_streaming in token_streamer(True)`
loop of `MockDendrite.call_stream` (lines 228-252).  Each chunk is appended
to the running response buffer; a chunk with `more = false` finalizes the
synapse as a 200 success; otherwise, if the clock has passed `timeout`, the
synapse is finalized as a 408 timeout.  Returns the finalized synapse (if
any) and the response buffer at loop exit. -/
def consumeChunks (timeout : ℤ) (syn : Synapse) :
    List Chunk → List String → Option Synapse × List String
  | [], rbuf => (none, rbuf)
  | c :: rest, rbuf =>
    if c.more = false then
      (some { syn with
        completion := joinSp (rbuf ++ c.tokens),
        dendrite := { syn.dendrite with
          status_code := 200, status_message := "OK", process_time := c.t } }, [])
    else if timeout < c.t then
      (some { syn with
        completion := joinSp (rbuf ++ c.tokens),
        dendrite := { syn.dendrite with
          status_code := 408, status_message := "Timeout", process_time := timeout } },
       rbuf ++ c.tokens)
    else
      consumeChunks timeout syn rest (rbuf ++ c.tokens)

/-- The `while continue_streaming` loop of `call_stream` (lines 227-252),
with an explicit fuel bound on the number of iterations.  Each iteration
re-invokes the token streamer (a fresh generator over the same tokens, with
the clock and the sleep oracle continuing where the previous run stopped)
and feeds its chunks to the consumer; if the consumer does not finalize,
the loop repeats with the accumulated response buffer. -/
def callStreamLoop (timeout : ℤ) (sleeps : Nat → ℤ) (tokens : List String)
    (syn : Synapse) : Nat → ℤ → Nat → List String → Option Synapse
  | 0, _, _, _ => none
  | fuel + 1, t, sIdx, rbuf =>
    let g := streamChunks 12 timeout sleeps tokens t sIdx
    let p := consumeChunks timeout syn g.chunks rbuf
    match p.1 with
    | some r => some r
    | none => callStreamLoop timeout sleeps tokens syn fuel g.tEnd g.sEnd p.2

/-- `MockDendrite.call_stream` (lines 207-258): stream the last message of
the synapse through a `MockStreamMiner` with `streaming_batch_size = 12`,
starting the clock at 0.  `fuel` bounds the number of `while` iterations;
`none` means the loop has not finalized within `fuel` iterations.  (The
`forward` dispatcher always invokes this with `deserialize=False`, so no
deserialization step is modeled here.) -/
def callStream (fuel : Nat) (timeout : ℤ) (sleeps : Nat → ℤ) (syn : Synapse) :
    Option Synapse :=
  callStreamLoop timeout sleeps (pySplit (syn.messages.getLastD "")) syn fuel 0 0 []

/-- Modelled from the spec: the request kind of a synapse object.  The
classes `PromptingSynapse` and `StreamPromptingSynapse` live in
`prompting/protocol.py`, which is not part of the sources; the spec treats
the unary and streaming request kinds as structurally distinct. -/
inductive SynKind where
  | prompting
  | streamPrompting
  | otherSynapse
deriving DecidableEq

/-- A per-target entry of the dispatch result: either a resolved unary
response (raw or deserialized), or the unevaluated `call_stream` async
generator for this target. -/
inductive DResult where
  | unary (res : Synapse ⊕ String) : DResult
  | streamCall (syn : Synapse) (timeout : ℤ) : DResult
deriving DecidableEq

/-- Modelled from the spec: `bt.dendrite.preprocess_synapse_for_request`
(a bittensor library call, outside the sources) "attaches target-specific
addressing metadata to the cloned request"; on the modeled fields it only
writes the opaque addressing slot of the dendrite block. -/
def preprocessForRequest (syn : Synapse) (addr : String) : Synapse :=
  { syn with dendrite := { syn.dendrite with otherInfo := addr } }

/-- `query_all_axons` (mock.py lines 278-327).  When `runAsync` is false
the code evaluates `[await single_axon_response(target_axon) for target_axon
in axons]`, calling the two-parameter coroutine `single_axon_response(i,
target_axon)` with a single argument: for a non-empty axon list this raises
a `TypeError` before any target is queried (for an empty list the
comprehension is empty and returns `[]`).  When `runAsync` is true the
responses are gathered concurrently, `asyncio.gather` preserving the input
order of the per-target coroutines. -/
def queryAllAxons (axons : List String) (syn : Synapse) (timeout : ℤ)
    (deser runAsync streaming : Bool) (draws : Nat → ℤ) :
    Except String (List DResult) :=
  if runAsync = false then
    if axons = [] then Except.ok []
    else Except.error
      "TypeError: single_axon_response() missing 1 required positional argument: target_axon"
  else
    Except.ok (axons.enum.map (fun p =>
      if streaming then
        DResult.streamCall (preprocessForRequest syn p.2) timeout
      else
        DResult.unary (callDeser p.1 (draws p.1) timeout deser (preprocessForRequest syn p.2))))

/-- `MockDendrite.forward` (lines 260-329): assert that the synapse kind
structurally matches the `streaming` flag, then query all axons. -/
def forward (kind : SynKind) (axons : List String) (syn : Synapse) (timeout : ℤ)
    (deser runAsync streaming : Bool) (draws : Nat → ℤ) :
    Except String (List DResult) :=
  if streaming then
    if kind = SynKind.streamPrompting then
      queryAllAxons axons syn timeout deser runAsync streaming draws
    else
      Except.error "Synapse must be a StreamPromptingSynapse object when is_stream is True."
  else
    if kind = SynKind.prompting then
      queryAllAxons axons syn timeout deser runAsync streaming draws
    else
      Except.error "Synapse must be a PromptingSynapse object when is_stream is False."

/-- The structural mismatch of claim C9: a streaming dispatch on a
non-streaming synapse, or vice versa. -/
def kindMismatch (kind : SynKind) (streaming : Bool) : Prop :=
  (streaming = true ∧ kind ≠ SynKind.streamPrompting)
    ∨ (streaming = false ∧ kind ≠ SynKind.prompting)

/-- All tokens of a chunk list, in emission order. -/
def allToks (cs : List Chunk) : List String := cs.flatMap Chunk.tokens

/-- The clock discipline of one generator run relative to a starting clock
value: a chunk yielded inside the token loop (`more = true`) may carry any
clock value (it follows a sleep), but the final flush (`more = false`)
carries exactly the clock value current after the preceding chunk — or the
starting value if it is the first chunk — because no sleep occurs between
the last yield and the flush. -/
inductive Chain : ℤ → List Chunk → Prop where
  | nil (t : ℤ) : Chain t []
  | consTrue (t : ℤ) (c : Chunk) (cs : List Chunk) :
      c.more = true → Chain c.t cs → Chain t (c :: cs)
  | consFalse (t : ℤ) (c : Chunk) (cs : List Chunk) :
      c.more = false → c.t = t → Chain c.t cs → Chain t (c :: cs)

/-- A fixed synapse used as the concrete input of witnesses. -/
def synBase : Synapse :=
  { messages := ["hi there"], roles := ["user"], completion := "",
    dendrite := { status_code := 0, status_message := "", process_time := 0,
                  otherInfo := "" } }

/-- A synapse whose prompt is empty (splits into zero tokens). -/
def synEmptyPrompt : Synapse :=
  { messages := [""], roles := ["user"], completion := "",
    dendrite := { status_code := 0, status_message := "", process_time := 0,
                  otherInfo := "" } }

/-- A synapse whose prompt splits into exactly 12 tokens — one full batch
of the streaming batch size hard-coded in `call_stream`. -/
def synDup : Synapse :=
  { messages := ["a b c d e f g h i j k l"], roles := ["user"], completion := "",
    dendrite := { status_code := 0, status_message := "", process_time := 0,
                  otherInfo := "" } }

/-- The record produced by `callStream 5 10 (fun _ => 3) synDup`: a 408
whose completion contains the 12 prompt tokens four times over, because the
consumer loop restarts the generator after each full-batch pass. -/
def rDup : Synapse :=
  { synDup with
    completion := String.intercalate " "
      ["a b c d e f g h i j k l", "a b c d e f g h i j k l",
       "a b c d e f g h i j k l", "a b c d e f g h i j k l"],
    dendrite := { status_code := 408, status_message := "Timeout",
                  process_time := 10, otherInfo := "" } }

/-- The record produced by `callStream 1 10 (fun _ => 3) synBase`: the
two-token prompt fits in one flush, a 200 at clock 0. -/
def rBase : Synapse :=
  { synBase with
    completion := "hi there",
    dendrite := { status_code := 200, status_message := "OK",
                  process_time := 0, otherInfo := "" } }

-- ======================================================================
-- Theorems
-- ======================================================================

@[simp] theorem LoopOut.push_chunks (o : LoopOut) (c : Chunk) :
    (o.push c).chunks = c :: o.chunks := rfl

@[simp] theorem LoopOut.push_buf (o : LoopOut) (c : Chunk) :
    (o.push c).buf = o.buf := rfl

@[simp] theorem LoopOut.push_broke (o : LoopOut) (c : Chunk) :
    (o.push c).broke = o.broke := rfl

@[simp] theorem LoopOut.push_t (o : LoopOut) (c : Chunk) :
    (o.push c).t = o.t := rfl

@[simp] theorem LoopOut.push_sIdx (o : LoopOut) (c : Chunk) :
    (o.push c).sIdx = o.sIdx := rfl

@[simp] theorem GenOut.ofLoop_chunks (o : LoopOut) :
    (GenOut.ofLoop o).chunks
      = o.chunks
        ++ (if o.broke = true ∨ o.buf = [] then [] else [⟨o.buf, false, o.t⟩]) := rfl

@[simp] theorem GenOut.ofLoop_tEnd (o : LoopOut) : (GenOut.ofLoop o).tEnd = o.t := rfl

@[simp] theorem GenOut.ofLoop_sEnd (o : LoopOut) : (GenOut.ofLoop o).sEnd = o.sIdx := rfl

/-- Every chunk yielded inside the token loop itself carries
`continue_streaming = true`: the flag is flipped only by the final flush. -/
theorem tokenLoop_chunks_more (batch : Nat) (timeout : ℤ) (sleeps : Nat → ℤ)
    (tokens : List String) :
    ∀ (buf : List String) (t : ℤ) (sIdx : Nat),
      ∀ c ∈ (tokenLoop batch timeout sleeps tokens buf t sIdx).chunks,
        c.more = true := by
  induction tokens with
  | nil => intro buf t sIdx c hc; simp [tokenLoop] at hc
  | cons tok rest ih =>
    intro buf t sIdx c hc
    simp only [tokenLoop] at hc
    split_ifs at hc with h1 h2
    · simp at hc
    · simp only [LoopOut.push_chunks, List.mem_cons] at hc
      rcases hc with rfl | hc
      · rfl
      · exact ih [] (t + sleeps sIdx) (sIdx + 1) c hc
    · exact ih (buf ++ [tok]) t sIdx c hc

/-- C2: for a unary call with the uniform draw in `[0, 2 * timeout)`, a
draw below `timeout` yields the placeholder completion encoding the target
index, 200/"OK", and `process_time` equal to the draw (hence in
`[0, timeout)`); otherwise the call yields an empty completion, 408/"Timeout",
and `process_time` exactly `timeout`.  The call is a total function: it
never raises. -/
theorem call_unary_outcome (i : Nat) (draw timeout : ℤ) (syn : Synapse)
    (h0 : 0 ≤ draw) (h2 : draw < 2 * timeout) :
    (draw < timeout →
      (call i draw timeout syn).completion = "Mock miner completion " ++ toString i
      ∧ (call i draw timeout syn).dendrite.status_code = 200
      ∧ (call i draw timeout syn).dendrite.status_message = "OK"
      ∧ (call i draw timeout syn).dendrite.process_time = draw
      ∧ 0 ≤ (call i draw timeout syn).dendrite.process_time
      ∧ (call i draw timeout syn).dendrite.process_time < timeout)
    ∧ (timeout ≤ draw →
      (call i draw timeout syn).completion = ""
      ∧ (call i draw timeout syn).dendrite.status_code = 408
      ∧ (call i draw timeout syn).dendrite.status_message = "Timeout"
      ∧ (call i draw timeout syn).dendrite.process_time = timeout) := by
  constructor
  · intro h
    simp [call, if_pos h]
    exact ⟨h0, h⟩
  · intro h
    simp [call, if_neg (not_lt.mpr h)]

/-- Witness for C2: both branches realized at concrete draws. -/
theorem call_unary_outcome_witness :
    ((call 7 1 2 synBase).dendrite.status_code = 200
      ∧ (call 7 1 2 synBase).dendrite.process_time = 1)
    ∧ ((call 7 3 2 synBase).dendrite.status_code = 408
      ∧ (call 7 3 2 synBase).dendrite.process_time = 2) := by
  have hs := (call_unary_outcome 7 1 2 synBase (by norm_num) (by norm_num)).1 (by norm_num)
  have ht := (call_unary_outcome 7 3 2 synBase (by norm_num) (by norm_num)).2 (by norm_num)
  exact ⟨⟨hs.2.1, hs.2.2.2.1⟩, ⟨ht.2.1, ht.2.2.2⟩⟩

/-- C10: a unary call writes only the completion and the status triple of
the dendrite block: messages, roles and the opaque dendrite metadata are
unchanged, and with `deserialize = false` the raw mutated synapse itself is
returned (no transform applied). -/
theorem call_unary_frame (i : Nat) (draw timeout : ℤ) (syn : Synapse) :
    callDeser i draw timeout false syn = Sum.inl (call i draw timeout syn)
    ∧ (call i draw timeout syn).messages = syn.messages
    ∧ (call i draw timeout syn).roles = syn.roles
    ∧ (call i draw timeout syn).dendrite.otherInfo = syn.dendrite.otherInfo := by
  refine ⟨rfl, ?_, ?_, ?_⟩ <;> (simp only [call]; split_ifs <;> rfl)

/-- C1 (code bug evidence): with `run_async = False` and a non-empty axon
list the dispatcher raises a `TypeError` (the sequential comprehension calls
the two-parameter `single_axon_response` with one argument) instead of
returning one result per target; the concurrent path does return exactly
one result per target. -/
theorem forward_sequential_typeerror :
    forward SynKind.prompting ["ax1", "ax2", "ax3"] synBase 2 false false false
        (fun i => (i : ℤ))
      = Except.error
          "TypeError: single_axon_response() missing 1 required positional argument: target_axon"
    ∧ Except.map List.length
        (forward SynKind.prompting ["ax1", "ax2", "ax3"] synBase 2 false true false
          (fun i => (i : ℤ)))
      = Except.ok 3 := by
  exact ⟨rfl, rfl⟩

/-- C9: when the synapse kind does not structurally match the `streaming`
flag, `forward` fails immediately with the assertion error, for every axon
list — no target is queried and no per-target result is produced (the
outcome does not even depend on the axon list). -/
theorem forward_kind_mismatch_errors (kind : SynKind) (streaming : Bool)
    (axons : List String) (syn : Synapse) (timeout : ℤ) (deser runAsync : Bool)
    (draws : Nat → ℤ) (h : kindMismatch kind streaming) :
    (∃ msg, forward kind axons syn timeout deser runAsync streaming draws
      = Except.error msg)
    ∧ forward kind axons syn timeout deser runAsync streaming draws
      = forward kind [] syn timeout deser runAsync streaming draws := by
  rcases h with ⟨hs, hk⟩ | ⟨hs, hk⟩ <;> subst hs <;>
    simp [forward, hk]

/-- Witness for C9: a streaming dispatch on a unary synapse errors. -/
theorem forward_kind_mismatch_errors_witness :
    kindMismatch SynKind.prompting true
    ∧ (∃ msg, forward SynKind.prompting ["ax1"] synBase 2 false true true
        (fun _ => 0) = Except.error msg) := by
  have hm : kindMismatch SynKind.prompting true := Or.inl ⟨rfl, by decide⟩
  exact ⟨hm, (forward_kind_mismatch_errors SynKind.prompting true ["ax1"] synBase 2
    false true (fun _ => 0) hm).1⟩

/-- C4 (code bug evidence): the claim — and the spec — say a timeout break
never suppresses the final flush, but on the break path the code evaluates
`self.start_time` in a print (mock.py line 141), an attribute
`MockStreamMiner` never defines; the `AttributeError` is caught by the
`except` (line 156) and the generator ends before the `if buffer:` flush.
Concretely: batch 2 over the prompt "a b c d e f g", timeout 10, per-batch
delays 5 (inside the code's `[0.2, 0.5] * timeout` draw range): the 7th
token is appended at clock 15 > 10, the break fires with `"g"` buffered,
and the emitted chunk sequence contains no `more = false` chunk at all —
the buffered token is lost. -/
theorem tokenLoop_break_no_flush :
    (tokenLoop 2 10 (fun _ => 5) (pySplit "a b c d e f g") [] 0 0).broke = true
    ∧ (tokenLoop 2 10 (fun _ => 5) (pySplit "a b c d e f g") [] 0 0).buf = ["g"]
    ∧ ∀ c ∈ (streamChunks 2 10 (fun _ => 5) (pySplit "a b c d e f g") 0 0).chunks,
        c.more = true := by
  exact ⟨by decide, by decide, by decide⟩

/-- C5: when the consumer loop of `call_stream` receives a chunk flagged
`more = false`, it finalizes the synapse as a 200/"OK" success whose
completion joins the accumulated tokens, even when the clock at that chunk
is already past the timeout: the success branch is tested before the
elapsed-time branch, so a flushed final chunk always wins over the outer
timeout check. -/
theorem consumeChunks_final_chunk_success (timeout : ℤ) (syn : Synapse)
    (toks : List String) (t : ℤ) (rest : List Chunk) (rbuf : List String)
    (hlate : timeout < t) :
    consumeChunks timeout syn (⟨toks, false, t⟩ :: rest) rbuf
      = (some { syn with
          completion := joinSp (rbuf ++ toks),
          dendrite := { syn.dendrite with
            status_code := 200, status_message := "OK", process_time := t } },
         []) := by
  simp [consumeChunks]

/-- Witness for C5: a final chunk arriving after the deadline is still
reported as a 200 success. -/
theorem consumeChunks_final_chunk_success_witness :
    (1 : ℤ) < 2
    ∧ consumeChunks 1 synBase [⟨["x"], false, 2⟩] ["y"]
      = (some { synBase with
          completion := joinSp (["y"] ++ ["x"]),
          dendrite := { synBase.dendrite with
            status_code := 200, status_message := "OK", process_time := 2 } },
         []) := by
  exact ⟨by norm_num,
    consumeChunks_final_chunk_success 1 synBase ["x"] 2 [] ["y"] (by norm_num)⟩

/-- C7: with batch size 2, the prompt "a b c d e", and a timeout large
enough that the elapsed-time check never fires, the generator emits exactly
(["a","b"], more), (["c","d"], more), (["e"], final): all input tokens, in
order, with `more = false` only on the last chunk. -/
theorem streamChunks_batch2_example (timeout : ℤ) (sleeps : Nat → ℤ)
    (h0 : 0 ≤ timeout) (h1 : sleeps 0 ≤ timeout)
    (h2 : sleeps 0 + sleeps 1 ≤ timeout) :
    ((streamChunks 2 timeout sleeps (pySplit "a b c d e") 0 0).chunks).map
        (fun c => (c.tokens, c.more))
      = [(["a", "b"], true), (["c", "d"], true), (["e"], false)] := by
  have hsplit : pySplit "a b c d e" = ["a", "b", "c", "d", "e"] := by decide
  have n0 : ¬ (timeout < 0) := not_lt.mpr h0
  have n1 : ¬ (timeout < 0 + sleeps 0) := not_lt.mpr (by linarith)
  have n1a : ¬ (timeout < sleeps 0) := not_lt.mpr (by linarith)
  have n2 : ¬ (timeout < 0 + sleeps 0 + sleeps 1) := not_lt.mpr (by linarith)
  have n2a : ¬ (timeout < sleeps 0 + sleeps 1) := not_lt.mpr (by linarith)
  rw [hsplit]
  simp [streamChunks, tokenLoop, GenOut.ofLoop, n0, n1, n1a, n2, n2a]

/-- Witness for C7: timeout 10 with both sleeps equal to 5. -/
theorem streamChunks_batch2_example_witness :
    (0 : ℤ) ≤ 10 ∧ (fun _ : Nat => (5 : ℤ)) 0 ≤ 10
    ∧ (fun _ : Nat => (5 : ℤ)) 0 + (fun _ : Nat => (5 : ℤ)) 1 ≤ 10
    ∧ ((streamChunks 2 10 (fun _ => (5 : ℤ)) (pySplit "a b c d e") 0 0).chunks).map
        (fun c => (c.tokens, c.more))
      = [(["a", "b"], true), (["c", "d"], true), (["e"], false)] := by
  refine ⟨by norm_num, by norm_num, by norm_num, ?_⟩
  exact streamChunks_batch2_example 10 (fun _ => (5 : ℤ))
    (by norm_num) (by norm_num) (by norm_num)

@[simp] theorem allToks_nil : allToks [] = [] := rfl

@[simp] theorem allToks_cons (c : Chunk) (cs : List Chunk) :
    allToks (c :: cs) = c.tokens ++ allToks cs := rfl

@[simp] theorem allToks_append (a b : List Chunk) :
    allToks (a ++ b) = allToks a ++ allToks b := by
  simp [allToks]

/-- The tokens carried by the loop chunks plus the leftover buffer are
exactly the starting buffer followed by the consumed portion of the input. -/
theorem tokenLoop_toks (batch : Nat) (timeout : ℤ) (sleeps : Nat → ℤ)
    (tokens : List String) :
    ∀ (buf : List String) (t : ℤ) (sIdx : Nat),
      ∃ n, allToks (tokenLoop batch timeout sleeps tokens buf t sIdx).chunks
          ++ (tokenLoop batch timeout sleeps tokens buf t sIdx).buf
        = buf ++ tokens.take n := by
  induction tokens with
  | nil =>
    intro buf t sIdx
    exact ⟨0, by simp [tokenLoop]⟩
  | cons tok rest ih =>
    intro buf t sIdx
    simp only [tokenLoop]
    split_ifs with h1 h2
    · exact ⟨1, by simp⟩
    · obtain ⟨n, hn⟩ := ih [] (t + sleeps sIdx) (sIdx + 1)
      simp only [List.nil_append] at hn
      refine ⟨n + 1, ?_⟩
      simp [hn, List.take_succ_cons]
    · obtain ⟨n, hn⟩ := ih (buf ++ [tok]) t sIdx
      refine ⟨n + 1, ?_⟩
      simp [hn, List.take_succ_cons]

/-- If the loop ends with an empty buffer, no break occurred and the loop
chunks carry the starting buffer followed by the whole input. -/
theorem tokenLoop_buf_nil_toks (batch : Nat) (timeout : ℤ) (sleeps : Nat → ℤ)
    (tokens : List String) :
    ∀ (buf : List String) (t : ℤ) (sIdx : Nat),
      (tokenLoop batch timeout sleeps tokens buf t sIdx).buf = [] →
      allToks (tokenLoop batch timeout sleeps tokens buf t sIdx).chunks
        = buf ++ tokens := by
  induction tokens with
  | nil =>
    intro buf t sIdx h
    simp only [tokenLoop] at h ⊢
    simp [h]
  | cons tok rest ih =>
    intro buf t sIdx h
    simp only [tokenLoop] at h ⊢
    split_ifs at h ⊢ with h1 h2
    · simp at h
    · simp only [LoopOut.push_buf] at h
      have := ih [] (t + sleeps sIdx) (sIdx + 1) h
      simp only [List.nil_append] at this
      simp [this]
    · have := ih (buf ++ [tok]) t sIdx h
      simp [this]

/-- Every chunk yielded inside the token loop carries exactly `batch`
tokens (the buffer is emitted precisely when it reaches the batch size). -/
theorem tokenLoop_chunk_batch (batch : Nat) (timeout : ℤ) (sleeps : Nat → ℤ)
    (tokens : List String) :
    ∀ (buf : List String) (t : ℤ) (sIdx : Nat),
      ∀ c ∈ (tokenLoop batch timeout sleeps tokens buf t sIdx).chunks,
        c.tokens.length = batch := by
  induction tokens with
  | nil => intro buf t sIdx c hc; simp [tokenLoop] at hc
  | cons tok rest ih =>
    intro buf t sIdx c hc
    simp only [tokenLoop] at hc
    split_ifs at hc with h1 h2
    · simp at hc
    · simp only [LoopOut.push_chunks, List.mem_cons] at hc
      rcases hc with rfl | hc
      · exact h2
      · exact ih [] (t + sleeps sIdx) (sIdx + 1) c hc
    · exact ih (buf ++ [tok]) t sIdx c hc

/-- A non-empty input (relative to the starting buffer) leaves the loop
with at least one chunk or a non-empty buffer. -/
theorem tokenLoop_ne (batch : Nat) (timeout : ℤ) (sleeps : Nat → ℤ)
    (tokens : List String) :
    ∀ (buf : List String) (t : ℤ) (sIdx : Nat), buf ++ tokens ≠ [] →
      (tokenLoop batch timeout sleeps tokens buf t sIdx).chunks ≠ []
      ∨ (tokenLoop batch timeout sleeps tokens buf t sIdx).buf ≠ [] := by
  induction tokens with
  | nil =>
    intro buf t sIdx h
    right
    simpa [tokenLoop] using h
  | cons tok rest ih =>
    intro buf t sIdx h
    simp only [tokenLoop]
    split_ifs with h1 h2
    · right; simp
    · left; simp
    · exact ih (buf ++ [tok]) t sIdx (by simp)

/-- The clock never runs backwards across the loop, and any yielded chunk
forces at least one sleep of at least `m`. -/
theorem tokenLoop_t_ge (batch : Nat) (timeout m : ℤ) (sleeps : Nat → ℤ)
    (hm : 0 ≤ m) (hsl : ∀ i, m ≤ sleeps i) (tokens : List String) :
    ∀ (buf : List String) (t : ℤ) (sIdx : Nat),
      t ≤ (tokenLoop batch timeout sleeps tokens buf t sIdx).t
      ∧ ((tokenLoop batch timeout sleeps tokens buf t sIdx).chunks ≠ [] →
          t + m ≤ (tokenLoop batch timeout sleeps tokens buf t sIdx).t) := by
  induction tokens with
  | nil => intro buf t sIdx; constructor <;> simp [tokenLoop]
  | cons tok rest ih =>
    intro buf t sIdx
    simp only [tokenLoop]
    split_ifs with h1 h2
    · constructor <;> simp
    · obtain ⟨ha, _⟩ := ih [] (t + sleeps sIdx) (sIdx + 1)
      have hs := hsl sIdx
      constructor
      · simp only [LoopOut.push_t]
        linarith
      · intro _
        simp only [LoopOut.push_t]
        linarith
    · exact ih (buf ++ [tok]) t sIdx

/-- If the starting clock and every yielded chunk are within the timeout,
so is the final clock of the loop (no sleep occurs after the last yield). -/
theorem tokenLoop_t_le (batch : Nat) (timeout : ℤ) (sleeps : Nat → ℤ)
    (tokens : List String) :
    ∀ (buf : List String) (t : ℤ) (sIdx : Nat), t ≤ timeout →
      (∀ c ∈ (tokenLoop batch timeout sleeps tokens buf t sIdx).chunks,
        c.t ≤ timeout) →
      (tokenLoop batch timeout sleeps tokens buf t sIdx).t ≤ timeout := by
  induction tokens with
  | nil => intro buf t sIdx ht _; simpa [tokenLoop] using ht
  | cons tok rest ih =>
    intro buf t sIdx ht hc
    simp only [tokenLoop] at hc ⊢
    split_ifs at hc ⊢ with h1 h2
    · exact ht
    · simp only [LoopOut.push_chunks, List.mem_cons, LoopOut.push_t,
        forall_eq_or_imp] at hc ⊢
      obtain ⟨hfirst, hrest⟩ := hc
      exact ih [] (t + sleeps sIdx) (sIdx + 1) hfirst hrest
    · exact ih (buf ++ [tok]) t sIdx ht hc

/-- One full generator run obeys the clock discipline `Chain` relative to
its starting clock. -/
theorem chain_ofLoop (batch : Nat) (timeout : ℤ) (sleeps : Nat → ℤ)
    (tokens : List String) :
    ∀ (buf : List String) (t : ℤ) (sIdx : Nat),
      Chain t (GenOut.ofLoop (tokenLoop batch timeout sleeps tokens buf t sIdx)).chunks := by
  induction tokens with
  | nil =>
    intro buf t sIdx
    by_cases hb : buf = []
    · simp only [tokenLoop, GenOut.ofLoop_chunks, hb, or_true, ite_true,
        List.nil_append, reduceIte]
      exact Chain.nil t
    · simp only [tokenLoop, GenOut.ofLoop_chunks]
      have hcond : ¬ ((false : Bool) = true ∨ buf = []) := by simp [hb]
      simp only [if_neg hcond, List.nil_append]
      exact Chain.consFalse t _ _ rfl rfl (Chain.nil t)
  | cons tok rest ih =>
    intro buf t sIdx
    simp only [tokenLoop]
    split_ifs with h1 h2
    · simp only [GenOut.ofLoop_chunks, true_or, ite_true, List.nil_append,
        List.append_nil, reduceIte]
      exact Chain.nil t
    · simp only [GenOut.ofLoop_chunks, LoopOut.push_chunks, LoopOut.push_buf,
        LoopOut.push_broke, LoopOut.push_t, List.cons_append]
      exact Chain.consTrue t _ _ rfl
        (by simpa only [GenOut.ofLoop_chunks] using ih [] (t + sleeps sIdx) (sIdx + 1))
    · exact ih (buf ++ [tok]) t sIdx

/-- If the consumer loop runs through all chunks without finalizing, every
chunk was a `more = true` chunk within the timeout. -/
theorem consume_none_mem (timeout : ℤ) (syn : Synapse) (cs : List Chunk) :
    ∀ rbuf, (consumeChunks timeout syn cs rbuf).1 = none →
      ∀ c ∈ cs, c.more = true ∧ c.t ≤ timeout := by
  induction cs with
  | nil => simp
  | cons c rest ih =>
    intro rbuf h d hd
    simp only [consumeChunks] at h
    split_ifs at h with h1 h2
    · rcases List.mem_cons.mp hd with rfl | hd
      · refine ⟨?_, le_of_not_lt h2⟩
        revert h1
        cases d.more <;> simp
      · exact ih (rbuf ++ c.tokens) h d hd

/-- If some chunk in the list carries `more = false`, the consumer loop
finalizes. -/
theorem consume_some_of_flush (timeout : ℤ) (syn : Synapse) (cs : List Chunk)
    (rbuf : List String) (c : Chunk) (hc : c ∈ cs) (hm : c.more = false) :
    ((consumeChunks timeout syn cs rbuf).1).isSome := by
  cases h : (consumeChunks timeout syn cs rbuf).1 with
  | some r => rfl
  | none =>
    have := (consume_none_mem timeout syn cs rbuf h c hc).1
    rw [hm] at this
    exact Bool.noConfusion this

/-- Any record finalized by the consumer loop is a 200/"OK" or a
408/"Timeout" whose `process_time` equals the timeout. -/
theorem consume_some_status (timeout : ℤ) (syn : Synapse) (cs : List Chunk) :
    ∀ rbuf r, (consumeChunks timeout syn cs rbuf).1 = some r →
      (r.dendrite.status_code = 200 ∧ r.dendrite.status_message = "OK")
      ∨ (r.dendrite.status_code = 408 ∧ r.dendrite.status_message = "Timeout"
          ∧ r.dendrite.process_time = timeout) := by
  induction cs with
  | nil => simp [consumeChunks]
  | cons c rest ih =>
    intro rbuf r h
    simp only [consumeChunks] at h
    split_ifs at h with h1 h2
    · simp only [Option.some.injEq] at h
      subst h
      left
      exact ⟨rfl, rfl⟩
    · simp only [Option.some.injEq] at h
      subst h
      right
      exact ⟨rfl, rfl, rfl⟩
    · exact ih (rbuf ++ c.tokens) r h

/-- Under the clock discipline, starting within the timeout, any record the
consumer finalizes carries a `process_time` within the timeout: a 408 sets
it to the timeout itself, and a 200 copies the clock of a flush chunk,
which equals the clock of the last in-timeout chunk before it. -/
theorem consume_some_pt (timeout : ℤ) (syn : Synapse) (cs : List Chunk) :
    ∀ rbuf t0 r, t0 ≤ timeout → Chain t0 cs →
      (consumeChunks timeout syn cs rbuf).1 = some r →
      r.dendrite.process_time ≤ timeout := by
  induction cs with
  | nil => simp [consumeChunks]
  | cons c rest ih =>
    intro rbuf t0 r hle hch h
    simp only [consumeChunks] at h
    split_ifs at h with h1 h2
    · simp only [Option.some.injEq] at h
      subst h
      cases hch with
      | consTrue _ _ _ hmore _ => rw [hmore] at h1; exact Bool.noConfusion h1
      | consFalse _ _ _ _ ht _ => simpa [ht] using hle
    · simp only [Option.some.injEq] at h
      subst h
      exact le_refl timeout
    · cases hch with
      | consTrue _ _ _ hmore hch2 =>
        exact ih (rbuf ++ c.tokens) c.t r (le_of_not_lt h2) hch2 h
      | consFalse _ _ _ hmore _ _ => exact absurd hmore h1

/-- The completion of any record the consumer finalizes joins the starting
response buffer with the tokens of an initial run of the chunk list. -/
theorem consume_some_completion (timeout : ℤ) (syn : Synapse) (cs : List Chunk) :
    ∀ rbuf r, (consumeChunks timeout syn cs rbuf).1 = some r →
      ∃ k, r.completion = joinSp (rbuf ++ allToks (cs.take k)) := by
  induction cs with
  | nil => simp [consumeChunks]
  | cons c rest ih =>
    intro rbuf r h
    simp only [consumeChunks] at h
    split_ifs at h with h1 h2
    · simp only [Option.some.injEq] at h
      subst h
      exact ⟨1, by simp⟩
    · simp only [Option.some.injEq] at h
      subst h
      exact ⟨1, by simp⟩
    · obtain ⟨k, hk⟩ := ih (rbuf ++ c.tokens) r h
      exact ⟨k + 1, by simpa [List.take_succ_cons, List.append_assoc] using hk⟩

/-- With zero tokens the generator yields no chunks, the consumer never
finalizes, and the `while` loop spins until the fuel is exhausted. -/
theorem callStreamLoop_nil_tokens (timeout : ℤ) (sleeps : Nat → ℤ) (syn : Synapse) :
    ∀ (fuel : Nat) (t : ℤ) (sIdx : Nat) (rbuf : List String),
      callStreamLoop timeout sleeps [] syn fuel t sIdx rbuf = none := by
  intro fuel
  induction fuel with
  | zero => intro t sIdx rbuf; rfl
  | succ n ih =>
    intro t sIdx rbuf
    simp only [callStreamLoop, streamChunks, tokenLoop, GenOut.ofLoop, consumeChunks]
    exact ih t sIdx rbuf

/-- Any record produced by the `while` loop is a 200/"OK" or a
408/"Timeout" with `process_time` equal to the timeout. -/
theorem callStreamLoop_some_status (timeout : ℤ) (sleeps : Nat → ℤ)
    (tokens : List String) (syn : Synapse) :
    ∀ (fuel : Nat) (t : ℤ) (sIdx : Nat) (rbuf : List String) (r : Synapse),
      callStreamLoop timeout sleeps tokens syn fuel t sIdx rbuf = some r →
      (r.dendrite.status_code = 200 ∧ r.dendrite.status_message = "OK")
      ∨ (r.dendrite.status_code = 408 ∧ r.dendrite.status_message = "Timeout"
          ∧ r.dendrite.process_time = timeout) := by
  intro fuel
  induction fuel with
  | zero => intro t sIdx rbuf r h; exact Option.noConfusion h
  | succ n ih =>
    intro t sIdx rbuf r h
    simp only [callStreamLoop] at h
    cases hp : (consumeChunks timeout syn
        (streamChunks 12 timeout sleeps tokens t sIdx).chunks rbuf).1 with
    | some r2 =>
      rw [hp] at h
      simp only [Option.some.injEq] at h
      subst h
      exact consume_some_status timeout syn _ rbuf r2 hp
    | none =>
      rw [hp] at h
      exact ih _ _ _ r h

/-- Unfolding of one `while` iteration. -/
theorem callStreamLoop_succ (timeout : ℤ) (sleeps : Nat → ℤ) (tokens : List String)
    (syn : Synapse) (fuel : Nat) (t : ℤ) (sIdx : Nat) (rbuf : List String) :
    callStreamLoop timeout sleeps tokens syn (fuel + 1) t sIdx rbuf
      = match (consumeChunks timeout syn
            (streamChunks 12 timeout sleeps tokens t sIdx).chunks rbuf).1 with
        | some r => some r
        | none => callStreamLoop timeout sleeps tokens syn fuel
            (streamChunks 12 timeout sleeps tokens t sIdx).tEnd
            (streamChunks 12 timeout sleeps tokens t sIdx).sEnd
            (consumeChunks timeout syn
              (streamChunks 12 timeout sleeps tokens t sIdx).chunks rbuf).2 := rfl

/-- Starting a pass within the timeout, any record the `while` loop
produces has `process_time` within the timeout. -/
theorem callStreamLoop_pt (timeout : ℤ) (sleeps : Nat → ℤ)
    (tokens : List String) (syn : Synapse) :
    ∀ (fuel : Nat) (t : ℤ) (sIdx : Nat) (rbuf : List String) (r : Synapse),
      t ≤ timeout →
      callStreamLoop timeout sleeps tokens syn fuel t sIdx rbuf = some r →
      r.dendrite.process_time ≤ timeout := by
  intro fuel
  induction fuel with
  | zero => intro t sIdx rbuf r _ h; exact Option.noConfusion h
  | succ n ih =>
    intro t sIdx rbuf r hle h
    rw [callStreamLoop_succ] at h
    cases hp : (consumeChunks timeout syn
        (streamChunks 12 timeout sleeps tokens t sIdx).chunks rbuf).1 with
    | some r2 =>
      rw [hp] at h
      simp only [Option.some.injEq] at h
      subst h
      exact consume_some_pt timeout syn _ rbuf t r2 hle
        (by simpa only [streamChunks] using chain_ofLoop 12 timeout sleeps tokens [] t sIdx)
        hp
    | none =>
      rw [hp] at h
      have hmem := consume_none_mem timeout syn _ rbuf hp
      have htle : (tokenLoop 12 timeout sleeps tokens [] t sIdx).t ≤ timeout := by
        apply tokenLoop_t_le 12 timeout sleeps tokens [] t sIdx hle
        intro c hc
        refine (hmem c ?_).2
        simp only [streamChunks, GenOut.ofLoop_chunks]
        exact List.mem_append_left _ hc
      exact ih _ _ _ r
        (by simpa only [streamChunks, GenOut.ofLoop_tEnd] using htle) h

/-- A token loop that starts within the timeout and whose yielded chunks
are all within the timeout exits cleanly: the break condition compares the
clock of the start or of the last yield, so it cannot fire. -/
theorem tokenLoop_no_break (batch : Nat) (timeout : ℤ) (sleeps : Nat → ℤ)
    (tokens : List String) :
    ∀ (buf : List String) (t : ℤ) (sIdx : Nat), t ≤ timeout →
      (∀ c ∈ (tokenLoop batch timeout sleeps tokens buf t sIdx).chunks,
        c.t ≤ timeout) →
      (tokenLoop batch timeout sleeps tokens buf t sIdx).broke = false := by
  induction tokens with
  | nil => intro buf t sIdx _ _; simp [tokenLoop]
  | cons tok rest ih =>
    intro buf t sIdx ht hc
    simp only [tokenLoop] at hc ⊢
    split_ifs at hc ⊢ with h1 h2
    · exact absurd ht (not_le.mpr h1)
    · simp only [LoopOut.push_chunks, List.mem_cons, forall_eq_or_imp] at hc
      simp only [LoopOut.push_broke]
      exact ih [] (t + sleeps sIdx) (sIdx + 1) hc.1 hc.2
    · exact ih (buf ++ [tok]) t sIdx ht hc

/-- Every chunk a token loop yields sits at least one sleep after the
starting clock. -/
theorem tokenLoop_chunk_t_ge (batch : Nat) (timeout m : ℤ) (sleeps : Nat → ℤ)
    (hm : 0 ≤ m) (hsl : ∀ i, m ≤ sleeps i) (tokens : List String) :
    ∀ (buf : List String) (t : ℤ) (sIdx : Nat),
      ∀ c ∈ (tokenLoop batch timeout sleeps tokens buf t sIdx).chunks,
        t + m ≤ c.t := by
  induction tokens with
  | nil => intro buf t sIdx c hc; simp [tokenLoop] at hc
  | cons tok rest ih =>
    intro buf t sIdx c hc
    simp only [tokenLoop] at hc
    split_ifs at hc with h1 h2
    · simp at hc
    · simp only [LoopOut.push_chunks, List.mem_cons] at hc
      rcases hc with rfl | hc
      · have := hsl sIdx
        show t + m ≤ t + sleeps sIdx
        linarith
      · have h3 := ih [] (t + sleeps sIdx) (sIdx + 1) c hc
        have := hsl sIdx
        linarith
    · exact ih (buf ++ [tok]) t sIdx c hc

/-- A break whose pass yielded only within-timeout chunks happened before
any yield of that pass: the loop produced no chunks, left the clock and
the sleep counter untouched, and the starting clock was already past the
timeout. -/
theorem tokenLoop_broke_chunks (batch : Nat) (timeout : ℤ) (sleeps : Nat → ℤ)
    (tokens : List String) :
    ∀ (buf : List String) (t : ℤ) (sIdx : Nat),
      (tokenLoop batch timeout sleeps tokens buf t sIdx).broke = true →
      (∀ c ∈ (tokenLoop batch timeout sleeps tokens buf t sIdx).chunks,
        c.t ≤ timeout) →
      (tokenLoop batch timeout sleeps tokens buf t sIdx).chunks = []
      ∧ (tokenLoop batch timeout sleeps tokens buf t sIdx).t = t
      ∧ (tokenLoop batch timeout sleeps tokens buf t sIdx).sIdx = sIdx
      ∧ timeout < t := by
  induction tokens with
  | nil => intro buf t sIdx hb _; simp [tokenLoop] at hb
  | cons tok rest ih =>
    intro buf t sIdx hb hc
    simp only [tokenLoop] at hb hc ⊢
    split_ifs at hb hc ⊢ with h1 h2
    · exact ⟨rfl, rfl, rfl, h1⟩
    · exfalso
      simp only [LoopOut.push_broke] at hb
      simp only [LoopOut.push_chunks, List.mem_cons, forall_eq_or_imp] at hc
      obtain ⟨hfirst, hrest⟩ := hc
      obtain ⟨_, _, _, hlt⟩ := ih [] (t + sleeps sIdx) (sIdx + 1) hb hrest
      exact absurd hfirst (not_le.mpr hlt)
    · exact ih (buf ++ [tok]) t sIdx hb hc

/-- The tokens carried by one full generator run — flush included or not —
always form an initial segment of the input. -/
theorem streamChunks_allToks (batch : Nat) (timeout : ℤ) (sleeps : Nat → ℤ)
    (tokens : List String) (t : ℤ) (sIdx : Nat) :
    ∃ n, allToks (streamChunks batch timeout sleeps tokens t sIdx).chunks
      = tokens.take n := by
  obtain ⟨N, hN⟩ := tokenLoop_toks batch timeout sleeps tokens [] t sIdx
  simp only [List.nil_append] at hN
  simp only [streamChunks, GenOut.ofLoop_chunks]
  split_ifs with hcond
  · refine ⟨min (allToks (tokenLoop batch timeout sleeps tokens [] t sIdx).chunks).length N, ?_⟩
    have h1 : allToks (tokenLoop batch timeout sleeps tokens [] t sIdx).chunks
        = (allToks (tokenLoop batch timeout sleeps tokens [] t sIdx).chunks
            ++ (tokenLoop batch timeout sleeps tokens [] t sIdx).buf).take
            (allToks (tokenLoop batch timeout sleeps tokens [] t sIdx).chunks).length := by
      rw [List.take_left]
    rw [List.append_nil]
    conv_lhs => rw [h1]
    rw [hN, List.take_take]
  · refine ⟨N, ?_⟩
    rw [allToks_append]
    simpa using hN

/-- A pass the consumer runs through without finalizing (starting within
the timeout, over at least one token) exited cleanly with an empty buffer:
its chunks were full batches, so it advanced the clock by at least one
sleep while staying within the timeout. -/
theorem pass_none_state (timeout m : ℤ) (sleeps : Nat → ℤ)
    (tokens : List String) (syn : Synapse)
    (hm : 0 ≤ m) (hsl : ∀ i, m ≤ sleeps i) (hne : tokens ≠ [])
    (t : ℤ) (sIdx : Nat) (rbuf : List String) (ht : t ≤ timeout)
    (hp : (consumeChunks timeout syn
        (streamChunks 12 timeout sleeps tokens t sIdx).chunks rbuf).1 = none) :
    t + m ≤ timeout
    ∧ t + m ≤ (streamChunks 12 timeout sleeps tokens t sIdx).tEnd
    ∧ (streamChunks 12 timeout sleeps tokens t sIdx).tEnd ≤ timeout := by
  have hmem := consume_none_mem timeout syn _ rbuf hp
  have hchle : ∀ c ∈ (tokenLoop 12 timeout sleeps tokens [] t sIdx).chunks,
      c.t ≤ timeout := by
    intro c hc
    refine (hmem c ?_).2
    simp only [streamChunks, GenOut.ofLoop_chunks]
    exact List.mem_append_left _ hc
  have hnb := tokenLoop_no_break 12 timeout sleeps tokens [] t sIdx ht hchle
  have hbuf : (tokenLoop 12 timeout sleeps tokens [] t sIdx).buf = [] := by
    by_contra hb
    have hcond : ¬ ((tokenLoop 12 timeout sleeps tokens [] t sIdx).broke = true
        ∨ (tokenLoop 12 timeout sleeps tokens [] t sIdx).buf = []) := by
      simp [hnb, hb]
    have hflush : (⟨(tokenLoop 12 timeout sleeps tokens [] t sIdx).buf, false,
        (tokenLoop 12 timeout sleeps tokens [] t sIdx).t⟩ : Chunk)
        ∈ (streamChunks 12 timeout sleeps tokens t sIdx).chunks := by
      simp only [streamChunks, GenOut.ofLoop_chunks, if_neg hcond]
      exact List.mem_append_right _ (List.mem_singleton_self _)
    exact Bool.noConfusion (hmem _ hflush).1
  have hch : (tokenLoop 12 timeout sleeps tokens [] t sIdx).chunks ≠ [] := by
    rcases tokenLoop_ne 12 timeout sleeps tokens [] t sIdx (by simpa using hne)
      with h | h
    · exact h
    · exact absurd hbuf h
  obtain ⟨c, hc⟩ := List.exists_mem_of_ne_nil _ hch
  have h1 : t + m ≤ timeout :=
    le_trans (tokenLoop_chunk_t_ge 12 timeout m sleeps hm hsl tokens [] t sIdx c hc)
      (hchle c hc)
  have h2 := (tokenLoop_t_ge 12 timeout m sleeps hm hsl tokens [] t sIdx).2 hch
  have h3 := tokenLoop_t_le 12 timeout sleeps tokens [] t sIdx ht hchle
  exact ⟨h1, by simpa only [streamChunks, GenOut.ofLoop_tEnd] using h2,
    by simpa only [streamChunks, GenOut.ofLoop_tEnd] using h3⟩

/-- With at least one token, a nonnegative timeout, and sleeps bounded
below by a positive `m`, the `while` loop finalizes within `timeout / m`
more iterations: a pass the consumer runs through without finalizing is a
clean full-batch pass that advances the clock by at least `m` while
staying within the timeout, and that is impossible once the remaining
budget is below `m`. -/
theorem callStreamLoop_isSome (timeout m : ℤ) (sleeps : Nat → ℤ)
    (tokens : List String) (syn : Synapse)
    (hm : 0 < m) (hsl : ∀ i, m ≤ sleeps i) (hne : tokens ≠ []) :
    ∀ (fuel : Nat) (t : ℤ) (sIdx : Nat) (rbuf : List String),
      t ≤ timeout → timeout < t + ((fuel : ℤ) + 1) * m →
      (callStreamLoop timeout sleeps tokens syn (fuel + 1) t sIdx rbuf).isSome := by
  intro fuel
  induction fuel with
  | zero =>
    intro t sIdx rbuf ht hlt
    rw [callStreamLoop_succ]
    cases hp : (consumeChunks timeout syn
        (streamChunks 12 timeout sleeps tokens t sIdx).chunks rbuf).1 with
    | some r2 => rfl
    | none =>
      exfalso
      have h1 := (pass_none_state timeout m sleeps tokens syn (le_of_lt hm) hsl hne
        t sIdx rbuf ht hp).1
      push_cast at hlt
      linarith
  | succ n ih =>
    intro t sIdx rbuf ht hlt
    rw [callStreamLoop_succ]
    cases hp : (consumeChunks timeout syn
        (streamChunks 12 timeout sleeps tokens t sIdx).chunks rbuf).1 with
    | some r2 => rfl
    | none =>
      obtain ⟨h1, h2, h3⟩ := pass_none_state timeout m sleeps tokens syn
        (le_of_lt hm) hsl hne t sIdx rbuf ht hp
      apply ih _ _ _ h3
      have hexp : (((n : ℤ) + 1) + 1) * m = ((n : ℤ) + 1) * m + m := by ring
      push_cast at hlt
      rw [hexp] at hlt
      linarith

/-- How many tokens a chunk list contributes: with every chunk holding
exactly `b` tokens, the total is a multiple of `b`. -/
theorem allToks_len_mod (b : Nat) (cs : List Chunk)
    (h : ∀ c ∈ cs, c.tokens.length = b) : (allToks cs).length % b = 0 := by
  induction cs with
  | nil => simp
  | cons c rest ih =>
    simp only [allToks_cons, List.length_append]
    rw [h c (List.mem_cons_self c rest), Nat.add_comm, Nat.add_mod_right]
    exact ih (fun d hd => h d (List.mem_cons_of_mem c hd))

/-- When the token count is not a multiple of the batch size 12, every
record the `while` loop produces (with an empty running buffer) joins an
initial segment of the token list: a pass the consumer finalizes hands it
an initial segment of the tokens, and a pass it runs through without
finalizing is — since a clean full-batch exit would make the count a
multiple of 12 — a chunkless broken pass that changes no state, so the
loop merely spins. -/
theorem callStreamLoop_take (timeout : ℤ) (sleeps : Nat → ℤ)
    (tokens : List String) (syn : Synapse)
    (hmod : tokens.length % 12 ≠ 0) :
    ∀ (fuel : Nat) (t : ℤ) (sIdx : Nat) (r : Synapse),
      callStreamLoop timeout sleeps tokens syn fuel t sIdx [] = some r →
      ∃ n, r.completion = joinSp (tokens.take n) := by
  intro fuel
  induction fuel with
  | zero => intro t sIdx r h; exact Option.noConfusion h
  | succ n ih =>
    intro t sIdx r h
    rw [callStreamLoop_succ] at h
    cases hp : (consumeChunks timeout syn
        (streamChunks 12 timeout sleeps tokens t sIdx).chunks []).1 with
    | some r2 =>
      rw [hp] at h
      simp only [Option.some.injEq] at h
      subst h
      obtain ⟨k, hk⟩ := consume_some_completion timeout syn _ [] r2 hp
      simp only [List.nil_append] at hk
      obtain ⟨N, hN⟩ := streamChunks_allToks 12 timeout sleeps tokens t sIdx
      have hsplit2 : allToks ((streamChunks 12 timeout sleeps tokens t sIdx).chunks.take k)
          ++ allToks ((streamChunks 12 timeout sleeps tokens t sIdx).chunks.drop k)
          = allToks (streamChunks 12 timeout sleeps tokens t sIdx).chunks := by
        rw [← allToks_append, List.take_append_drop]
      have htake : allToks ((streamChunks 12 timeout sleeps tokens t sIdx).chunks.take k)
          = (allToks (streamChunks 12 timeout sleeps tokens t sIdx).chunks).take
              (allToks ((streamChunks 12 timeout sleeps tokens t sIdx).chunks.take k)).length := by
        rw [← hsplit2, List.take_left]
      have hfinal : allToks ((streamChunks 12 timeout sleeps tokens t sIdx).chunks.take k)
          = tokens.take
              (min (allToks ((streamChunks 12 timeout sleeps tokens t sIdx).chunks.take k)).length N) := by
        conv_lhs => rw [htake]
        rw [hN, List.take_take]
      exact ⟨min (allToks ((streamChunks 12 timeout sleeps tokens t sIdx).chunks.take k)).length N,
        hk.trans (congrArg joinSp hfinal)⟩
    | none =>
      rw [hp] at h
      have hmem := consume_none_mem timeout syn _ [] hp
      have hbuf : (tokenLoop 12 timeout sleeps tokens [] t sIdx).buf ≠ [] := by
        intro hb
        have htoks := tokenLoop_buf_nil_toks 12 timeout sleeps tokens [] t sIdx hb
        simp only [List.nil_append] at htoks
        have hlen := allToks_len_mod 12 _
          (tokenLoop_chunk_batch 12 timeout sleeps tokens [] t sIdx)
        rw [htoks] at hlen
        exact hmod hlen
      have hbroke : (tokenLoop 12 timeout sleeps tokens [] t sIdx).broke = true := by
        cases hbk : (tokenLoop 12 timeout sleeps tokens [] t sIdx).broke with
        | true => rfl
        | false =>
          exfalso
          have hcond : ¬ ((tokenLoop 12 timeout sleeps tokens [] t sIdx).broke = true
              ∨ (tokenLoop 12 timeout sleeps tokens [] t sIdx).buf = []) := by
            simp [hbk, hbuf]
          have hflush : (⟨(tokenLoop 12 timeout sleeps tokens [] t sIdx).buf, false,
              (tokenLoop 12 timeout sleeps tokens [] t sIdx).t⟩ : Chunk)
              ∈ (streamChunks 12 timeout sleeps tokens t sIdx).chunks := by
            simp only [streamChunks, GenOut.ofLoop_chunks, if_neg hcond]
            exact List.mem_append_right _ (List.mem_singleton_self _)
          exact Bool.noConfusion (hmem _ hflush).1
      have hchle : ∀ c ∈ (tokenLoop 12 timeout sleeps tokens [] t sIdx).chunks,
          c.t ≤ timeout := by
        intro c hc
        refine (hmem c ?_).2
        simp only [streamChunks, GenOut.ofLoop_chunks]
        exact List.mem_append_left _ hc
      obtain ⟨hcnil, hteq, hseq, _⟩ := tokenLoop_broke_chunks 12 timeout sleeps
        tokens [] t sIdx hbroke hchle
      have hgc : (streamChunks 12 timeout sleeps tokens t sIdx).chunks = [] := by
        simp [streamChunks, GenOut.ofLoop_chunks, hcnil, hbroke]
      rw [hgc] at h
      simp only [consumeChunks] at h
      have htE : (streamChunks 12 timeout sleeps tokens t sIdx).tEnd = t := by
        simpa only [streamChunks, GenOut.ofLoop_tEnd] using hteq
      have hsE : (streamChunks 12 timeout sleeps tokens t sIdx).sEnd = sIdx := by
        simpa only [streamChunks, GenOut.ofLoop_sEnd] using hseq
      rw [htE, hsE] at h
      exact ih t sIdx r h

/-- C3 (counterexample): on a whitespace-only prompt the generator yields
no chunks, the consumer never finalizes, and the `while` loop of
`call_stream` never terminates — no iteration bound produces a record — so
"every streaming call with a finite prompt and a finite timeout terminates
with a terminal record" is false on the code. -/
theorem callStream_empty_prompt_hangs :
    ¬ ∃ fuel r, callStream fuel 10 (fun _ => 3) synEmptyPrompt = some r := by
  rintro ⟨fuel, r, h⟩
  have hsplit : pySplit (synEmptyPrompt.messages.getLastD "") = [] := by decide
  simp only [callStream] at h
  rw [hsplit, callStreamLoop_nil_tokens] at h
  exact Option.noConfusion h

/-- C3 (amended): for every streaming call whose prompt contains at least
one whitespace-separated token, with a nonnegative timeout and the
per-batch sleeps bounded below by a positive `m` (the code draws sleeps in
`[0.2 * timeout, 0.5 * timeout]`), the call terminates — within any number
of iterations past `timeout / m` — and yields a terminal 200 or 408
record, never a hang and never an uncaught exception.  (On a
whitespace-only prompt the loop spins forever; see the counterexample.) -/
theorem callStream_terminates (timeout m : ℤ) (sleeps : Nat → ℤ)
    (syn : Synapse) (fuel : Nat)
    (ht0 : 0 ≤ timeout) (hm : 0 < m) (hsl : ∀ i, m ≤ sleeps i)
    (hne : pySplit (syn.messages.getLastD "") ≠ [])
    (hfuel : timeout < (fuel : ℤ) * m) :
    ∃ r, callStream (fuel + 1) timeout sleeps syn = some r
      ∧ (r.dendrite.status_code = 200 ∨ r.dendrite.status_code = 408) := by
  have hs := callStreamLoop_isSome timeout m sleeps
    (pySplit (syn.messages.getLastD "")) syn hm hsl hne fuel 0 0 [] ht0
    (by nlinarith)
  obtain ⟨r, hr⟩ := Option.isSome_iff_exists.mp hs
  refine ⟨r, hr, ?_⟩
  rcases callStreamLoop_some_status timeout sleeps _ syn (fuel + 1) 0 0 [] r hr with
    ⟨h1, _⟩ | ⟨h1, _⟩
  · exact Or.inl h1
  · exact Or.inr h1

/-- Witness for C3 (amended): a one-word prompt, timeout 10, sleeps 3,
lower bound 2, six iterations. -/
theorem callStream_terminates_witness :
    (0 : ℤ) ≤ 10 ∧ (0 : ℤ) < 2 ∧ (∀ i : Nat, (2 : ℤ) ≤ (fun _ => (3 : ℤ)) i)
    ∧ pySplit (synBase.messages.getLastD "") ≠ []
    ∧ (10 : ℤ) < ((6 : Nat) : ℤ) * 2
    ∧ ∃ r, callStream (6 + 1) 10 (fun _ => (3 : ℤ)) synBase = some r
        ∧ (r.dendrite.status_code = 200 ∨ r.dendrite.status_code = 408) := by
  refine ⟨by norm_num, by norm_num, fun i => by norm_num, by decide, by norm_num, ?_⟩
  exact callStream_terminates 10 2 (fun _ => 3) synBase 6 (by norm_num) (by norm_num)
    (fun i => by norm_num) (by decide) (by norm_num)

/-- C8: every record the core produces carries `process_time` at most the
configured timeout, and a timeout outcome (408) sets it to exactly the
timeout.  Unary path: a success stores the draw, which is below the
timeout; a timeout stores the timeout itself.  Streaming path (with the
clock advanced only by the modeled sleeps): a 408 stores the timeout, and
a 200 stores the clock of the flush chunk, which cannot exceed the timeout
because no sleep separates it from the last chunk the consumer accepted. -/
theorem process_time_le_timeout :
    (∀ (i : Nat) (draw timeout : ℤ) (syn : Synapse),
      (call i draw timeout syn).dendrite.process_time ≤ timeout
      ∧ ((call i draw timeout syn).dendrite.status_code = 408 →
          (call i draw timeout syn).dendrite.process_time = timeout))
    ∧ (∀ (fuel : Nat) (timeout : ℤ) (sleeps : Nat → ℤ) (syn r : Synapse),
        0 ≤ timeout →
        callStream fuel timeout sleeps syn = some r →
        r.dendrite.process_time ≤ timeout
        ∧ (r.dendrite.status_code = 408 → r.dendrite.process_time = timeout)) := by
  constructor
  · intro i draw timeout syn
    simp only [call]
    split_ifs with h
    · exact ⟨le_of_lt h, by intro hc; simp at hc⟩
    · exact ⟨le_refl timeout, fun _ => rfl⟩
  · intro fuel timeout sleeps syn r h0 h
    simp only [callStream] at h
    refine ⟨callStreamLoop_pt timeout sleeps _ syn fuel 0 0 [] r h0 h, ?_⟩
    intro h408
    rcases callStreamLoop_some_status timeout sleeps _ syn fuel 0 0 [] r h with
      ⟨h1, _⟩ | ⟨_, _, h3⟩
    · rw [h1] at h408; exact absurd h408 (by norm_num)
    · exact h3

/-- Witness for C8: a two-token prompt finalizes 200 at clock 0 ≤ 10. -/
theorem process_time_le_timeout_witness :
    (0 : ℤ) ≤ 10
    ∧ callStream 1 10 (fun _ => 3) synBase = some rBase
    ∧ rBase.dendrite.process_time ≤ 10 := by
  refine ⟨by norm_num, by decide, ?_⟩
  exact (process_time_le_timeout.2 1 10 (fun _ => 3) synBase rBase (by norm_num)
    (by decide)).1

/-- C6 (amended): when the count of whitespace tokens of the prompt is not
a multiple of the streaming batch size 12, the completion of the record
returned by a streaming call joins an initial segment of the prompt
tokens — original order, no token skipped, none duplicated.  (For a
positive multiple of 12 the consumer restarts the generator and duplicates
tokens: see the counterexample.) -/
theorem callStream_completion_initial_segment (fuel : Nat) (timeout : ℤ)
    (sleeps : Nat → ℤ) (syn r : Synapse)
    (hmod : (pySplit (syn.messages.getLastD "")).length % 12 ≠ 0)
    (h : callStream fuel timeout sleeps syn = some r) :
    ∃ n, r.completion = joinSp ((pySplit (syn.messages.getLastD "")).take n) := by
  simp only [callStream] at h
  exact callStreamLoop_take timeout sleeps _ syn hmod fuel 0 0 r h

/-- Witness for C6 (amended): the two-token prompt yields completion
"hi there", the join of the full token list. -/
theorem callStream_completion_initial_segment_witness :
    (pySplit (synBase.messages.getLastD "")).length % 12 ≠ 0
    ∧ callStream 1 10 (fun _ => 3) synBase = some rBase
    ∧ ∃ n, rBase.completion
        = joinSp ((pySplit (synBase.messages.getLastD "")).take n) := by
  refine ⟨by decide, by decide, ?_⟩
  exact callStream_completion_initial_segment 1 10 (fun _ => 3) synBase rBase
    (by decide) (by decide)

set_option maxRecDepth 40000 in
/-- C6 (counterexample): with a 12-token prompt (exactly one full batch)
and sleeps of 3 against timeout 10 — inside the interval the code draws
from — each pass ends with a `more = true` chunk, the `while` loop
restarts the generator, and the resulting 408 record contains the 12
prompt tokens four times over: its completion is not the join of any
initial segment of the prompt tokens. -/
theorem callStream_duplicates_tokens :
    callStream 5 10 (fun _ => 3) synDup = some rDup
    ∧ ¬ ∃ n, rDup.completion
        = joinSp ((pySplit (synDup.messages.getLastD "")).take n) := by
  constructor
  · decide
  · rintro ⟨n, hn⟩
    have hsplit : pySplit (synDup.messages.getLastD "")
        = ["a", "b", "c", "d", "e", "f", "g", "h", "i", "j", "k", "l"] := by decide
    rw [hsplit] at hn
    rcases le_or_lt n 12 with hle | hlt
    · interval_cases n <;> exact absurd hn (by decide)
    · rw [List.take_of_length_le (by simp; omega)] at hn
      exact absurd hn (by decide)
